import Mathlib

set_option maxHeartbeats 1000000

/-!
Verification of the hex encode/decode module (src/hex.rs).

A Rust `str` is modelled as a `List Char` of Unicode scalar values (Lean
`Char` and Rust `char` coincide).  `str::len` in Rust is the UTF-8 byte
length, modelled by `byteLen`.  Byte-offset slicing (which panics on
non-boundaries in Rust) is modelled separately by `sliceBytes`, returning
`none` where Rust would panic; `fromHexChecked` is the byte-faithful
panic-aware model of `from_hex`, while `from_hex` is the plain functional
model, and the two are proved to agree on every input.
-/

/-- Encoded UTF-8 size in bytes of one Unicode scalar value. -/
def utf8Len (c : Char) : Nat :=
  if c.toNat < 0x80 then 1
  else if c.toNat < 0x800 then 2
  else if c.toNat < 0x10000 then 3
  else 4

/-- Model of Rust `str::len`: the UTF-8 byte length of the string. -/
def byteLen (s : List Char) : Nat :=
  (s.map utf8Len).sum

/-- Model of Rust `str::is_ascii`: every scalar value is below 128. -/
def allAscii (s : List Char) : Bool :=
  s.all fun c => decide (c.toNat < 128)

/-- Model of Rust `char::is_whitespace`: the Unicode White_Space property. -/
def rustIsWhitespace (c : Char) : Bool :=
  decide (c.toNat = 0x09) || decide (c.toNat = 0x0A) || decide (c.toNat = 0x0B) ||
  decide (c.toNat = 0x0C) || decide (c.toNat = 0x0D) || decide (c.toNat = 0x20) ||
  decide (c.toNat = 0x85) || decide (c.toNat = 0xA0) || decide (c.toNat = 0x1680) ||
  (decide (0x2000 ≤ c.toNat) && decide (c.toNat ≤ 0x200A)) ||
  decide (c.toNat = 0x2028) || decide (c.toNat = 0x2029) || decide (c.toNat = 0x202F) ||
  decide (c.toNat = 0x205F) || decide (c.toNat = 0x3000)

/-- Model of Rust `str::trim`: drop leading and trailing whitespace. -/
def rustTrim (s : List Char) : List Char :=
  ((s.dropWhile rustIsWhitespace).reverse.dropWhile rustIsWhitespace).reverse

/-- Model of `core::num::ParseIntError` (its `IntErrorKind`). -/
inductive ParseIntError : Type
  | empty
  | invalidDigit
  | posOverflow
  | negOverflow
  deriving DecidableEq

/-- Model of Rust `char::to_digit(16)`: the digit value of `0-9`, `a-f`, `A-F`. -/
def hexDigit? (c : Char) : Option Nat :=
  if 48 ≤ c.toNat ∧ c.toNat ≤ 57 then some (c.toNat - 48)
  else if 97 ≤ c.toNat ∧ c.toNat ≤ 102 then some (c.toNat - 87)
  else if 65 ≤ c.toNat ∧ c.toNat ≤ 70 then some (c.toNat - 55)
  else none

/-- Digit-accumulation loop of `u8::from_str_radix(_, 16)`: checked
multiply-by-16 and checked add of each digit, overflow above 255. -/
def u8Radix16Go : List Char → Nat → Except ParseIntError Nat
  | [], acc => .ok acc
  | c :: rest, acc =>
    match hexDigit? c with
    | none => .error .invalidDigit
    | some d =>
      if 255 < acc * 16 then .error .posOverflow
      else if 255 < acc * 16 + d then .error .posOverflow
      else u8Radix16Go rest (acc * 16 + d)

/-- Model of `u8::from_str_radix(s, 16)`.  The empty string is `Empty`; a
leading `+` is accepted as a sign (a lone `+` is `InvalidDigit`); `-` is not
a sign for an unsigned type and falls through to digit parsing. -/
def u8FromStrRadix16 : List Char → Except ParseIntError Nat
  | [] => .error .empty
  | c :: rest =>
    if c = '+' then
      if rest = [] then .error .invalidDigit
      else u8Radix16Go rest 0
    else u8Radix16Go (c :: rest) 0

/-- Model of `HexError` from src/hex.rs. -/
inductive HexError
  | InvalidCharacter : ParseIntError → HexError
  | LengthError : HexError
  | HexConversionError : HexError
  deriving DecidableEq

deriving instance DecidableEq for Except

/-- The user-visible message of each `HexError` kind, from the
`#[error(...)]` attributes on the enum. -/
def hexErrorMessage : HexError → String
  | .InvalidCharacter _ => "Only hexadecimal characters (0-9,a-f) are permitted"
  | .LengthError => "Hex string lengths must be a multiple of 2"
  | .HexConversionError => "Invalid hex representation for the target type"

/-- The decode loop of `from_hex`: parse consecutive two-character chunks as
bytes; a trailing odd character is ignored (the loop runs `len / 2` times). -/
def decodePairs : List Char → Except ParseIntError (List Nat)
  | [] => .ok []
  | [_] => .ok []
  | c1 :: c2 :: rest =>
    match u8FromStrRadix16 [c1, c2] with
    | .error e => .error e
    | .ok b =>
      match decodePairs rest with
      | .error e => .error e
      | .ok bs => .ok (b :: bs)

/-- The `0x` marker handling of `from_hex`: drop the first two characters
exactly when the string is at least two bytes long and starts with `0x`. -/
def strip0x (t : List Char) : List Char :=
  if 2 ≤ byteLen t ∧ t.take 2 = ['0', 'x'] then t.drop 2 else t

/-- Model of `from_hex` from src/hex.rs: trim, odd-byte-length check,
ASCII check on the original input, `0x` strip, then pairwise parse. -/
def from_hex (s : List Char) : Except HexError (List Nat) :=
  let t := rustTrim s
  if byteLen t % 2 = 1 then .error .LengthError
  else if allAscii s = false then .error .HexConversionError
  else Except.mapError .InvalidCharacter (decodePairs (strip0x t))

/-- The hexadecimal digit characters `0-9a-f`. -/
def hexDigitChar (n : Nat) : Char :=
  Char.ofNat (if n < 10 then 48 + n else 87 + n)

/-- Model of formatting one `u8` as width-2 zero-padded lowercase hex. -/
def toHexByte (b : Nat) : List Char :=
  [hexDigitChar (b / 16 % 16), hexDigitChar (b % 16)]

/-- Model of `to_hex` from src/hex.rs instantiated at `u8`: concatenate the
two-digit lowercase rendering of each byte. -/
def to_hex : List Nat → List Char
  | [] => []
  | b :: rest => toHexByte b ++ to_hex rest

/-- Model of `to_hex_multiple`: encode each byte sequence independently. -/
def to_hex_multiple (bytearray : List (List Nat)) : List (List Char) :=
  bytearray.map to_hex

/-- Model of the byte-formatting write step of `to_hex`: writing a
formatted value into a `String` is infallible, so it always returns the
formatted characters (`none` would model the `expect` panic branch). -/
def writeFmt02x (b : Nat) : Option (List Char) := some (toHexByte b)

/-- Panic-aware model of `to_hex`: propagate a (never occurring) write
failure instead of asserting it away. -/
def toHexChecked : List Nat → Option (List Char)
  | [] => some []
  | b :: rest =>
    match writeFmt02x b with
    | none => none
    | some p =>
      match toHexChecked rest with
      | none => none
      | some r => some (p ++ r)

/-- Drop the first `n` bytes of a string; `none` when `n` overruns the
string or falls inside a multi-byte character (a Rust slicing panic). -/
def dropBytes : List Char → Nat → Option (List Char)
  | s, 0 => some s
  | [], _ + 1 => none
  | c :: rest, n + 1 =>
    if utf8Len c ≤ n + 1 then dropBytes rest (n + 1 - utf8Len c) else none

/-- Take the first `n` bytes of a string; `none` when `n` overruns the
string or falls inside a multi-byte character (a Rust slicing panic). -/
def takeBytes : List Char → Nat → Option (List Char)
  | _, 0 => some []
  | [], _ + 1 => none
  | c :: rest, n + 1 =>
    if utf8Len c ≤ n + 1 then
      match takeBytes rest (n + 1 - utf8Len c) with
      | none => none
      | some l => some (c :: l)
    else none

/-- Model of the Rust byte slice `s[a..b]`: `none` exactly where Rust
panics (reversed range, out of bounds, or a non-boundary offset). -/
def sliceBytes (s : List Char) (a b : Nat) : Option (List Char) :=
  if a ≤ b then
    match dropBytes s a with
    | none => none
    | some t => takeBytes t (b - a)
  else none

/-- Byte-faithful model of the decode loop of `from_hex`: iteration `i`
slices bytes `2*i..2*(i+1)` out of the full remaining string and parses
them; `k` counts the iterations left. -/
def decodeFrom (t : List Char) : Nat → Nat → Option (Except ParseIntError (List Nat))
  | _, 0 => some (.ok [])
  | i, k + 1 =>
    match sliceBytes t (2 * i) (2 * (i + 1)) with
    | none => none
    | some pair =>
      match u8FromStrRadix16 pair with
      | .error e => some (.error e)
      | .ok b =>
        match decodeFrom t (i + 1) k with
        | none => none
        | some (.error e) => some (.error e)
        | some (.ok bs) => some (.ok (b :: bs))

/-- The tail of `fromHexChecked` after the `0x` handling: run the decode
loop `byteLen / 2` times and wrap parse failures in `InvalidCharacter`. -/
def fromHexTail (t2 : List Char) : Option (Except HexError (List Nat)) :=
  match decodeFrom t2 0 (byteLen t2 / 2) with
  | none => none
  | some (.error e) => some (.error (.InvalidCharacter e))
  | some (.ok bs) => some (.ok bs)

/-- Byte-faithful, panic-aware model of `from_hex`: every string index is a
byte index and every slice is `sliceBytes`, so `none` marks exactly the
executions on which the Rust code would panic. -/
def fromHexChecked (s : List Char) : Option (Except HexError (List Nat)) :=
  let t := rustTrim s
  if byteLen t % 2 = 1 then some (.error .LengthError)
  else if allAscii s = false then some (.error .HexConversionError)
  else if 2 ≤ byteLen t then
    match sliceBytes t 0 2 with
    | none => none
    | some p =>
      if p = ['0', 'x'] then
        match sliceBytes t 2 (byteLen t) with
        | none => none
        | some t2 => fromHexTail t2
      else fromHexTail t
  else fromHexTail t

/-- A two-character chunk that `u8::from_str_radix(_, 16)` accepts: two hex
digits, or a `+` sign followed by one hex digit. -/
def pairOk (c1 c2 : Char) : Bool :=
  ((hexDigit? c1).isSome && (hexDigit? c2).isSome) ||
  (decide (c1 = '+') && (hexDigit? c2).isSome)

/-- Every two-character chunk of the string is accepted (odd tails are not). -/
def pairsOk : List Char → Bool
  | [] => true
  | [_] => false
  | c1 :: c2 :: rest => pairOk c1 c2 && pairsOk rest

/-- An ASCII whitespace character (whitespace with scalar value below 128). -/
def asciiWs (c : Char) : Prop := rustIsWhitespace c = true ∧ c.toNat < 128

instance (c : Char) : Decidable (asciiWs c) :=
  inferInstanceAs (Decidable (rustIsWhitespace c = true ∧ c.toNat < 128))

/-- ASCII lowercasing of one character: map `A-Z` to `a-z`, fix the rest. -/
def asciiLowerChar (c : Char) : Char :=
  if 65 ≤ c.toNat ∧ c.toNat ≤ 90 then Char.ofNat (c.toNat + 32) else c

/-- ASCII lowercasing of a string. -/
def asciiLower (s : List Char) : List Char := s.map asciiLowerChar

/-! ### Basic facts about the character-level model -/

theorem utf8Len_of_ascii {c : Char} (h : c.toNat < 128) : utf8Len c = 1 := by
  unfold utf8Len
  rw [if_pos]
  omega

theorem byteLen_eq_length {s : List Char} (h : ∀ c ∈ s, c.toNat < 128) :
    byteLen s = s.length := by
  induction s with
  | nil => rfl
  | cons c rest ih =>
    have hc : utf8Len c = 1 := utf8Len_of_ascii (h c (List.mem_cons_self c rest))
    have hr := ih fun x hx => h x (List.mem_cons_of_mem c hx)
    simp only [byteLen, List.map_cons, List.sum_cons, List.length_cons, hc] at *
    omega

theorem allAscii_iff {s : List Char} : allAscii s = true ↔ ∀ c ∈ s, c.toNat < 128 := by
  simp [allAscii, List.all_eq_true]

theorem mem_of_mem_dropWhile {p : Char → Bool} {l : List Char} {c : Char}
    (h : c ∈ l.dropWhile p) : c ∈ l :=
  (List.dropWhile_sublist p).mem h

theorem mem_rustTrim {s : List Char} {c : Char} (h : c ∈ rustTrim s) : c ∈ s := by
  unfold rustTrim at h
  rw [List.mem_reverse] at h
  have h2 := mem_of_mem_dropWhile h
  rw [List.mem_reverse] at h2
  exact mem_of_mem_dropWhile h2

theorem dropWhile_eq_self_of_head {p : Char → Bool} :
    ∀ {l : List Char}, (∀ c ∈ l, p c = false) → l.dropWhile p = l := by
  intro l h
  cases l with
  | nil => rfl
  | cons c rest =>
    rw [List.dropWhile_cons, if_neg]
    simp [h c (List.mem_cons_self c rest)]

theorem rustTrim_eq_self {l : List Char} (h : ∀ c ∈ l, rustIsWhitespace c = false) :
    rustTrim l = l := by
  unfold rustTrim
  rw [dropWhile_eq_self_of_head h]
  rw [dropWhile_eq_self_of_head fun c hc => h c (List.mem_reverse.mp hc)]
  exact List.reverse_reverse l

/-! ### Facts about hex digits and the encoder -/

theorem hexDigit?_lt {c : Char} {d : Nat} (h : hexDigit? c = some d) : d < 16 := by
  unfold hexDigit? at h
  split at h
  · injection h with h; omega
  · split at h
    · injection h with h; omega
    · split at h
      · injection h with h; omega
      · exact absurd h (by simp)

theorem hexDigitChar_ascii : ∀ n, n < 16 → (hexDigitChar n).toNat < 128 := by decide

theorem hexDigitChar_not_ws : ∀ n, n < 16 → rustIsWhitespace (hexDigitChar n) = false := by
  decide

theorem hexDigitChar_ne_x : ∀ n, n < 16 → hexDigitChar n ≠ 'x' := by decide

theorem hexDigitChar_ne_plus : ∀ n, n < 16 → hexDigitChar n ≠ '+' := by decide

theorem hexDigit?_hexDigitChar : ∀ n, n < 16 → hexDigit? (hexDigitChar n) = some n := by
  decide

theorem hexDigitChar_range : ∀ n, n < 16 →
    (48 ≤ (hexDigitChar n).toNat ∧ (hexDigitChar n).toNat ≤ 57) ∨
    (97 ≤ (hexDigitChar n).toNat ∧ (hexDigitChar n).toNat ≤ 102) := by decide

theorem mem_to_hex {B : List Nat} {c : Char} (h : c ∈ to_hex B) :
    ∃ n, n < 16 ∧ c = hexDigitChar n := by
  induction B with
  | nil => cases h
  | cons b rest ih =>
    simp only [to_hex, toHexByte, List.cons_append, List.nil_append, List.mem_cons] at h
    rcases h with h | h | h
    · exact ⟨b / 16 % 16, Nat.mod_lt _ (by omega), h⟩
    · exact ⟨b % 16, Nat.mod_lt _ (by omega), h⟩
    · exact ih h

theorem to_hex_length (B : List Nat) : (to_hex B).length = 2 * B.length := by
  induction B with
  | nil => rfl
  | cons b rest ih =>
    simp only [to_hex, toHexByte, List.cons_append, List.nil_append, List.length_cons, ih]
    omega

theorem to_hex_ascii (B : List Nat) : ∀ c ∈ to_hex B, c.toNat < 128 := by
  intro c hc
  obtain ⟨n, hn, rfl⟩ := mem_to_hex hc
  exact hexDigitChar_ascii n hn

theorem rustTrim_to_hex (B : List Nat) : rustTrim (to_hex B) = to_hex B := by
  apply rustTrim_eq_self
  intro c hc
  obtain ⟨n, hn, rfl⟩ := mem_to_hex hc
  exact hexDigitChar_not_ws n hn

theorem byteLen_to_hex (B : List Nat) : byteLen (to_hex B) = 2 * B.length := by
  rw [byteLen_eq_length (to_hex_ascii B), to_hex_length]

theorem strip0x_to_hex (B : List Nat) : strip0x (to_hex B) = to_hex B := by
  unfold strip0x
  cases B with
  | nil => rw [if_neg]; simp [to_hex, byteLen]
  | cons b rest =>
    rw [if_neg]
    intro ⟨_, htake⟩
    have : to_hex (b :: rest) = hexDigitChar (b / 16 % 16) :: hexDigitChar (b % 16) :: to_hex rest := by
      simp [to_hex, toHexByte]
    rw [this] at htake
    simp only [List.take_succ_cons, List.take_zero, List.cons.injEq, and_true] at htake
    exact hexDigitChar_ne_x (b % 16) (Nat.mod_lt _ (by omega)) htake.2

theorem u8_pair_of_digits {c1 c2 : Char} {d1 d2 : Nat} (hne : c1 ≠ '+')
    (h1 : hexDigit? c1 = some d1) (h2 : hexDigit? c2 = some d2) :
    u8FromStrRadix16 [c1, c2] = .ok (d1 * 16 + d2) := by
  have hd1 := hexDigit?_lt h1
  have hd2 := hexDigit?_lt h2
  have hx1 : ¬ 255 < d1 := by omega
  have hx2 : ¬ 255 < d1 * 16 := by omega
  have hx3 : ¬ 255 < d1 * 16 + d2 := by omega
  simp [u8FromStrRadix16, u8Radix16Go, h1, h2, hne, hx1, hx2, hx3]

theorem u8_toHexByte {b : Nat} (h : b < 256) :
    u8FromStrRadix16 (toHexByte b) = .ok b := by
  have h1 : b / 16 % 16 < 16 := Nat.mod_lt _ (by omega)
  have h2 : b % 16 < 16 := Nat.mod_lt _ (by omega)
  have := u8_pair_of_digits (hexDigitChar_ne_plus _ h1)
    (hexDigit?_hexDigitChar _ h1) (hexDigit?_hexDigitChar _ h2)
  rw [toHexByte, this]
  congr 1
  omega

theorem decodePairs_to_hex {B : List Nat} (h : ∀ b ∈ B, b < 256) :
    decodePairs (to_hex B) = .ok B := by
  induction B with
  | nil => rfl
  | cons b rest ih =>
    have hb : b < 256 := h b (List.mem_cons_self b rest)
    have hrest := ih fun x hx => h x (List.mem_cons_of_mem b hx)
    have hcons : to_hex (b :: rest) =
        hexDigitChar (b / 16 % 16) :: hexDigitChar (b % 16) :: to_hex rest := by
      simp [to_hex, toHexByte]
    rw [hcons]
    unfold decodePairs
    have hpair := u8_toHexByte hb
    rw [toHexByte] at hpair
    rw [hpair, hrest]

/-! ### Claim C1: round trip -/

/-- Claim C1: for every byte sequence B, decoding the encoding returns the
original sequence: `from_hex (to_hex B) = Ok B`. -/
theorem from_hex_to_hex_round_trip (B : List Nat) (h : ∀ b ∈ B, b < 256) :
    from_hex (to_hex B) = .ok B := by
  have ha : allAscii (to_hex B) = true := allAscii_iff.mpr (to_hex_ascii B)
  simp only [from_hex, rustTrim_to_hex]
  rw [if_neg (by rw [byteLen_to_hex]; omega), ha,
    if_neg (by simp : ¬ (true = false)), strip0x_to_hex, decodePairs_to_hex h]
  rfl

theorem from_hex_to_hex_round_trip_witness :
    (∀ b ∈ [10, 11, 12, 13], b < 256) ∧
    from_hex (to_hex [10, 11, 12, 13]) = .ok [10, 11, 12, 13] :=
  ⟨by decide, from_hex_to_hex_round_trip [10, 11, 12, 13] (by decide)⟩

/-! ### Claim C5: encoder length and character set -/

/-- Claim C5: `to_hex` output has length exactly twice the input length and uses
only the characters `0-9` and `a-f`; the empty sequence encodes to the empty
string; and the three concrete examples hold. -/
theorem to_hex_length_and_charset (B : List Nat) (_h : ∀ b ∈ B, b < 256) :
    (to_hex B).length = 2 * B.length ∧
    (∀ c ∈ to_hex B,
      (48 ≤ c.toNat ∧ c.toNat ≤ 57) ∨ (97 ≤ c.toNat ∧ c.toNat ≤ 102)) ∧
    to_hex [] = [] ∧
    to_hex [0, 0, 0, 0] = "00000000".data ∧
    to_hex [10, 11, 12, 13] = "0a0b0c0d".data ∧
    to_hex [0, 0, 0, 255] = "000000ff".data := by
  refine ⟨to_hex_length B, ?_, rfl, by decide, by decide, by decide⟩
  intro c hc
  obtain ⟨n, hn, rfl⟩ := mem_to_hex hc
  exact hexDigitChar_range n hn

theorem to_hex_length_and_charset_witness :
    (∀ b ∈ [0, 0, 0, 255], b < 256) ∧
    (to_hex [0, 0, 0, 255]).length = 2 * [0, 0, 0, 255].length :=
  ⟨by decide, (to_hex_length_and_charset [0, 0, 0, 255] (by decide)).1⟩

/-! ### Claim C7: exact error messages -/

/-- Claim C7: the user-visible message of `LengthError` is exactly
"Hex string lengths must be a multiple of 2" and of `InvalidCharacter`
exactly "Only hexadecimal characters (0-9,a-f) are permitted". -/
theorem hexError_message_text :
    hexErrorMessage .LengthError = "Hex string lengths must be a multiple of 2" ∧
    ∀ e, hexErrorMessage (.InvalidCharacter e) =
      "Only hexadecimal characters (0-9,a-f) are permitted" :=
  ⟨rfl, fun _ => rfl⟩

/-! ### Claim C3: error priority -/

/-- Claim C3: the odd-trimmed-length check fires first (`LengthError`), the
non-ASCII check second (`HexConversionError`), and a per-pair parse error
(`InvalidCharacter`) is only reachable when both earlier checks pass; in
particular an odd-trimmed-length non-ASCII input yields `LengthError`. -/
theorem from_hex_error_priority (s : List Char) :
    (byteLen (rustTrim s) % 2 = 1 → from_hex s = .error .LengthError) ∧
    (byteLen (rustTrim s) % 2 ≠ 1 → allAscii s = false →
      from_hex s = .error .HexConversionError) ∧
    (∀ e, from_hex s = .error (.InvalidCharacter e) →
      byteLen (rustTrim s) % 2 ≠ 1 ∧ allAscii s = true) := by
  refine ⟨fun h => by simp [from_hex, h], fun h1 h2 => by simp [from_hex, h1, h2], ?_⟩
  intro e he
  by_cases h1 : byteLen (rustTrim s) % 2 = 1
  · simp [from_hex, h1] at he
  · by_cases h2 : allAscii s = false
    · simp [from_hex, h1, h2] at he
    · exact ⟨h1, by revert h2; cases allAscii s <;> simp⟩

theorem from_hex_error_priority_witness :
    byteLen (rustTrim "🖖a".data) % 2 = 1 ∧ allAscii "🖖a".data = false ∧
    from_hex "🖖a".data = .error .LengthError :=
  ⟨by decide, by decide, (from_hex_error_priority "🖖a".data).1 (by decide)⟩

/-! ### Claim C4: the guard rejects exactly non-ASCII input -/

/-- Claim C4 (amended): for an input whose trimmed byte length is even, `from_hex`
fails with `HexConversionError` exactly when the original (untrimmed) input
contains a character outside the ASCII range 0-127 (not 0-255 as claimed). -/
theorem from_hex_ascii_guard (s : List Char) (h : byteLen (rustTrim s) % 2 = 0) :
    from_hex s = .error .HexConversionError ↔ ¬ (∀ c ∈ s, c.toNat < 128) := by
  constructor
  · intro he hall
    have ha : allAscii s = true := allAscii_iff.mpr hall
    simp only [from_hex] at he
    rw [if_neg (by omega), ha, if_neg (by simp : ¬ (true = false))] at he
    cases hd : decodePairs (strip0x (rustTrim s)) <;>
      simp [Except.mapError, hd] at he
  · intro hna
    have hfalse : allAscii s = false := by
      cases hc : allAscii s
      · rfl
      · exact absurd (allAscii_iff.mp hc) hna
    simp [from_hex, hfalse, h]

/-- Claim C4 counterexample: an even-length input whose characters all lie in the
0-255 code-point range is nevertheless rejected by the guard. -/
theorem from_hex_latin1_counterexample :
    byteLen (rustTrim ['é', 'é']) % 2 = 0 ∧
    (∀ c ∈ ['é', 'é'], c.toNat ≤ 255) ∧
    from_hex ['é', 'é'] = .error .HexConversionError :=
  ⟨by decide, by decide, by decide⟩

theorem from_hex_ascii_guard_witness :
    from_hex ['é', 'é'] = .error .HexConversionError :=
  (from_hex_ascii_guard ['é', 'é'] (by decide)).mpr (by decide)

/-! ### Claim C9: trivial inputs decode to the empty sequence -/

/-- Claim C9 (amended): the empty string, every string of ASCII whitespace, and
the bare marker string `0x` decode to `Ok []`. -/
theorem from_hex_trivial_inputs :
    from_hex [] = .ok [] ∧
    (∀ w : List Char, (∀ c ∈ w, asciiWs c) → from_hex w = .ok []) ∧
    from_hex "0x".data = .ok [] := by
  refine ⟨by decide, ?_, by decide⟩
  intro w hw
  have hws : ∀ c ∈ w, rustIsWhitespace c = true := fun c hc => (hw c hc).1
  have hascii : allAscii w = true := allAscii_iff.mpr fun c hc => (hw c hc).2
  have htrim : rustTrim w = [] := by
    unfold rustTrim
    rw [List.dropWhile_eq_nil_iff.mpr hws]
    rfl
  rw [from_hex, htrim]
  simp [byteLen, hascii, strip0x, decodePairs, Except.mapError]

/-- Claim C9 counterexample: a whitespace-only string (a no-break space, which
`str::trim` removes) is rejected with `HexConversionError`, not `Ok []`. -/
theorem from_hex_nbsp_only_counterexample :
    rustIsWhitespace (Char.ofNat 0xA0) = true ∧
    rustTrim [Char.ofNat 0xA0] = [] ∧
    from_hex [Char.ofNat 0xA0] = .error .HexConversionError :=
  ⟨by decide, by decide, by decide⟩

theorem from_hex_trivial_inputs_witness :
    from_hex [' ', ' '] = .ok [] :=
  from_hex_trivial_inputs.2.1 [' ', ' '] (by decide)

/-! ### Byte slicing on ASCII strings never panics -/

theorem dropBytes_of_ascii : ∀ (s : List Char) (a : Nat),
    (∀ c ∈ s, c.toNat < 128) → a ≤ s.length → dropBytes s a = some (s.drop a) := by
  intro s
  induction s with
  | nil =>
    intro a _ ha
    have : a = 0 := by simpa using ha
    subst this
    rfl
  | cons c rest ih =>
    intro a hall ha
    cases a with
    | zero => rfl
    | succ n =>
      have hc : utf8Len c = 1 := utf8Len_of_ascii (hall c (List.mem_cons_self c rest))
      simp only [dropBytes, hc]
      rw [if_pos (by omega), (by omega : n + 1 - 1 = n),
        ih n (fun x hx => hall x (List.mem_cons_of_mem c hx))
          (by simp only [List.length_cons] at ha; omega)]
      rfl

theorem takeBytes_of_ascii : ∀ (s : List Char) (a : Nat),
    (∀ c ∈ s, c.toNat < 128) → a ≤ s.length → takeBytes s a = some (s.take a) := by
  intro s
  induction s with
  | nil =>
    intro a _ ha
    have : a = 0 := by simpa using ha
    subst this
    rfl
  | cons c rest ih =>
    intro a hall ha
    cases a with
    | zero => rfl
    | succ n =>
      have hc : utf8Len c = 1 := utf8Len_of_ascii (hall c (List.mem_cons_self c rest))
      simp only [takeBytes, hc]
      rw [if_pos (by omega), (by omega : n + 1 - 1 = n),
        ih n (fun x hx => hall x (List.mem_cons_of_mem c hx))
          (by simp only [List.length_cons] at ha; omega)]
      rfl

theorem sliceBytes_of_ascii {s : List Char} (hall : ∀ c ∈ s, c.toNat < 128)
    {a b : Nat} (hab : a ≤ b) (hb : b ≤ s.length) :
    sliceBytes s a b = some ((s.drop a).take (b - a)) := by
  unfold sliceBytes
  rw [if_pos hab, dropBytes_of_ascii s a hall (by omega)]
  exact takeBytes_of_ascii _ (b - a)
    (fun c hc => hall c (List.mem_of_mem_drop hc))
    (by rw [List.length_drop]; omega)

theorem decodeFrom_of_ascii {t : List Char} (hall : ∀ c ∈ t, c.toNat < 128) :
    ∀ (k i : Nat), 2 * i + 2 * k ≤ t.length →
      decodeFrom t i k = some (decodePairs ((t.drop (2 * i)).take (2 * k))) := by
  intro k
  induction k with
  | zero => intro i _; simp [decodeFrom, decodePairs]
  | succ m ih =>
    intro i h
    have hslice : sliceBytes t (2 * i) (2 * (i + 1)) = some ((t.drop (2 * i)).take 2) := by
      rw [sliceBytes_of_ascii hall (by omega) (by omega),
        (by omega : 2 * (i + 1) - 2 * i = 2)]
    have hlen : 2 ≤ (t.drop (2 * i)).length := by
      rw [List.length_drop]; omega
    obtain ⟨c1, c2, rest, hd⟩ : ∃ c1 c2 rest, t.drop (2 * i) = c1 :: c2 :: rest := by
      cases hx : t.drop (2 * i) with
      | nil => rw [hx] at hlen; simp at hlen
      | cons c1 tail =>
        cases tail with
        | nil => rw [hx] at hlen; simp at hlen
        | cons c2 rest => exact ⟨c1, c2, rest, rfl⟩
    have hpair : (t.drop (2 * i)).take 2 = [c1, c2] := by rw [hd]; rfl
    have hrest : rest = t.drop (2 * (i + 1)) := by
      have h2 : (t.drop (2 * i)).drop 2 = t.drop (2 * i + 2) := by
        rw [List.drop_drop]
      rw [hd] at h2
      simp only [List.drop_succ_cons, List.drop_zero] at h2
      rw [h2, (by omega : 2 * i + 2 = 2 * (i + 1))]
    have htake : (t.drop (2 * i)).take (2 * (m + 1)) = c1 :: c2 :: rest.take (2 * m) := by
      rw [hd, (by omega : 2 * (m + 1) = 2 * m + 1 + 1), List.take_succ_cons,
        List.take_succ_cons]
    rw [htake]
    simp only [decodeFrom, hslice, hpair, decodePairs]
    rw [ih (i + 1) (by omega), ← hrest]
    cases u8FromStrRadix16 [c1, c2] with
    | error e => simp
    | ok b => cases decodePairs (rest.take (2 * m)) <;> simp

theorem fromHexTail_of_ascii {t : List Char} (hall : ∀ c ∈ t, c.toNat < 128)
    (heven : t.length % 2 = 0) :
    fromHexTail t = some (Except.mapError .InvalidCharacter (decodePairs t)) := by
  unfold fromHexTail
  rw [byteLen_eq_length hall,
    decodeFrom_of_ascii hall (t.length / 2) 0 (by omega)]
  have htake : (t.drop (2 * 0)).take (2 * (t.length / 2)) = t := by
    rw [(by omega : 2 * 0 = 0), List.drop_zero, (by omega : 2 * (t.length / 2) = t.length),
      List.take_length]
  rw [htake]
  cases decodePairs t <;> simp [Except.mapError]

/-! ### Claim C8: totality and panic freedom -/

/-- Claim C8: both operations are total and panic-free: the checked model of
`to_hex` never takes its write-failure branch, and the byte-faithful
checked model of `from_hex` (in which every Rust slicing panic is `none`)
never returns `none` and agrees with the functional model on every input,
including inputs with multi-byte characters. -/
theorem hex_ops_total_and_panic_free :
    (∀ B : List Nat, toHexChecked B = some (to_hex B)) ∧
    (∀ s : List Char, fromHexChecked s = some (from_hex s)) := by
  constructor
  · intro B
    induction B with
    | nil => rfl
    | cons b rest ih => simp [toHexChecked, writeFmt02x, ih, to_hex]
  · intro s
    by_cases h1 : byteLen (rustTrim s) % 2 = 1
    · simp only [fromHexChecked, from_hex]
      rw [if_pos h1, if_pos h1]
    · by_cases h2 : allAscii s = false
      · simp only [fromHexChecked, from_hex]
        rw [if_neg h1, if_neg h1, if_pos h2, if_pos h2]
      · have hascii : ∀ c ∈ s, c.toNat < 128 := by
          refine allAscii_iff.mp ?_
          revert h2
          cases allAscii s <;> simp
        have hallt : ∀ c ∈ rustTrim s, c.toNat < 128 :=
          fun c hc => hascii c (mem_rustTrim hc)
        have hlen : byteLen (rustTrim s) = (rustTrim s).length := byteLen_eq_length hallt
        have heven : (rustTrim s).length % 2 = 0 := by omega
        have hfun : from_hex s =
            Except.mapError .InvalidCharacter (decodePairs (strip0x (rustTrim s))) := by
          simp only [from_hex]
          rw [if_neg h1, if_neg h2]
        by_cases hge : 2 ≤ byteLen (rustTrim s)
        · have hslice0 : sliceBytes (rustTrim s) 0 2 = some ((rustTrim s).take 2) := by
            have h0 := sliceBytes_of_ascii hallt (a := 0) (b := 2) (by omega) (by omega)
            simpa using h0
          by_cases hpx : (rustTrim s).take 2 = ['0', 'x']
          · have hdropascii : ∀ c ∈ (rustTrim s).drop 2, c.toNat < 128 :=
              fun c hc => hallt c (List.mem_of_mem_drop hc)
            have hslice2 : sliceBytes (rustTrim s) 2 (byteLen (rustTrim s)) =
                some ((rustTrim s).drop 2) := by
              rw [hlen, sliceBytes_of_ascii hallt (by omega) (le_refl _)]
              congr 1
              exact List.take_of_length_le (by rw [List.length_drop])
            have hstrip : strip0x (rustTrim s) = (rustTrim s).drop 2 := by
              unfold strip0x
              rw [if_pos ⟨hge, hpx⟩]
            have hdropeven : ((rustTrim s).drop 2).length % 2 = 0 := by
              rw [List.length_drop]; omega
            simp only [fromHexChecked]
            rw [if_neg h1, if_neg h2]
            simp only [hge, if_true, hslice0, hpx, if_pos rfl, hslice2]
            rw [fromHexTail_of_ascii hdropascii hdropeven, hfun, hstrip]
          · simp only [fromHexChecked]
            rw [if_neg h1, if_neg h2]
            simp only [hge, if_true, hslice0, if_neg hpx]
            rw [fromHexTail_of_ascii hallt heven, hfun]
            have hstrip : strip0x (rustTrim s) = rustTrim s := by
              unfold strip0x
              exact if_neg fun hx => hpx hx.2
            rw [hstrip]
        · simp only [fromHexChecked]
          rw [if_neg h1, if_neg h2, if_neg hge]
          rw [fromHexTail_of_ascii hallt heven, hfun]
          have hstrip : strip0x (rustTrim s) = rustTrim s := by
            unfold strip0x
            exact if_neg fun hx => hge hx.1
          rw [hstrip]

/-! ### Trimming lemmas for whitespace and marker invariance -/

theorem rustTrim_sandwich {s w1 w2 : List Char}
    (hw1 : ∀ c ∈ w1, rustIsWhitespace c = true)
    (hw2 : ∀ c ∈ w2, rustIsWhitespace c = true) :
    rustTrim (w1 ++ s ++ w2) = rustTrim s := by
  unfold rustTrim
  rw [List.append_assoc, List.dropWhile_append_of_pos hw1]
  cases hx : s.dropWhile rustIsWhitespace with
  | nil =>
    rw [List.dropWhile_append, hx]
    simp [List.dropWhile_eq_nil_iff.mpr hw2]
  | cons c l =>
    rw [List.dropWhile_append, hx]
    simp only [List.isEmpty_cons]
    rw [if_neg (by simp), List.reverse_append,
      List.dropWhile_append_of_pos fun x hxx => hw2 x (List.mem_reverse.mp hxx)]

theorem trimLeft_eq_of_trim_fixed {r : List Char} (h : rustTrim r = r) :
    r.dropWhile rustIsWhitespace = r := by
  apply (List.dropWhile_sublist rustIsWhitespace).eq_of_length
  have h1 : (r.dropWhile rustIsWhitespace).length ≤ r.length :=
    (List.dropWhile_sublist rustIsWhitespace).length_le
  have h2 : (rustTrim r).length ≤ (r.dropWhile rustIsWhitespace).length := by
    unfold rustTrim
    rw [List.length_reverse]
    calc ((r.dropWhile rustIsWhitespace).reverse.dropWhile rustIsWhitespace).length
        ≤ (r.dropWhile rustIsWhitespace).reverse.length :=
          (List.dropWhile_sublist rustIsWhitespace).length_le
      _ = (r.dropWhile rustIsWhitespace).length := List.length_reverse _
  rw [h] at h2
  omega

theorem trimRight_eq_of_trim_fixed {r : List Char} (h : rustTrim r = r) :
    r.reverse.dropWhile rustIsWhitespace = r.reverse := by
  have htl := trimLeft_eq_of_trim_fixed h
  unfold rustTrim at h
  rw [htl] at h
  have := congrArg List.reverse h
  rwa [List.reverse_reverse] at this

theorem rustTrim_marker {r : List Char} (h : rustTrim r = r) :
    rustTrim ('0' :: 'x' :: r) = '0' :: 'x' :: r := by
  have htr := trimRight_eq_of_trim_fixed h
  unfold rustTrim
  rw [List.dropWhile_cons, if_neg (by decide)]
  rw [show ('0' :: 'x' :: r).reverse = r.reverse ++ ['x', '0'] by simp]
  rw [List.dropWhile_append, htr]
  cases hrev : r.reverse with
  | nil =>
    have : r = [] := List.reverse_eq_nil_iff.mp hrev
    subst this
    decide
  | cons b m =>
    simp only [List.isEmpty_cons]
    rw [if_neg (by simp), List.reverse_append]
    have : (b :: m).reverse = r := by
      rw [← hrev, List.reverse_reverse]
    rw [this]
    rfl

/-! ### Claim C6: whitespace and marker invariance -/

/-- Claim C6 (amended): `from_hex` is invariant under surrounding ASCII
whitespace and under a single leading `0x` marker (prepended to a
trim-fixed value not itself starting with `0x`), and the concrete
whitespace and marker examples hold.  The `0x` marker is dropped exactly
when the trimmed value's first two characters are exactly `0x`. -/
theorem from_hex_ws_and_marker (s w1 w2 r : List Char)
    (hw1 : ∀ c ∈ w1, asciiWs c) (hw2 : ∀ c ∈ w2, asciiWs c)
    (hr2 : rustTrim r = r) (hr3 : r.take 2 ≠ ['0', 'x']) :
    from_hex (w1 ++ s ++ w2) = from_hex s ∧
    from_hex ('0' :: 'x' :: r) = from_hex r ∧
    from_hex " 0a0b0c0d  ".data = from_hex "0a0b0c0d".data ∧
    from_hex "0x0a0b0c0d".data = from_hex "0a0b0c0d".data := by
  refine ⟨?_, ?_, by decide, by decide⟩
  · have htrim := rustTrim_sandwich (s := s) (fun c hc => (hw1 c hc).1)
      (fun c hc => (hw2 c hc).1)
    have h1 : w1.all (fun c => decide (c.toNat < 128)) = true :=
      List.all_eq_true.mpr fun c hc => by simpa using (hw1 c hc).2
    have h2 : w2.all (fun c => decide (c.toNat < 128)) = true :=
      List.all_eq_true.mpr fun c hc => by simpa using (hw2 c hc).2
    have hasc : allAscii (w1 ++ s ++ w2) = allAscii s := by
      unfold allAscii
      rw [List.append_assoc, List.all_append, List.all_append, h1, h2]
      simp
    simp only [from_hex, htrim, hasc]
  · have htrim0 := rustTrim_marker hr2
    have hb : byteLen ('0' :: 'x' :: r) = byteLen r + 2 := by
      simp [byteLen, utf8Len]
      omega
    have hba : allAscii ('0' :: 'x' :: r) = allAscii r := by
      simp [allAscii]
    have hstrip2 : strip0x ('0' :: 'x' :: r) = r := by
      unfold strip0x
      rw [if_pos ⟨by rw [hb]; omega, rfl⟩]
      rfl
    have hstripr : strip0x r = r := by
      unfold strip0x
      exact if_neg fun hx => hr3 hx.2
    simp only [from_hex, htrim0, hr2, hb, hba, hstrip2, hstripr]
    rw [(by omega : (byteLen r + 2) % 2 = byteLen r % 2)]

/-- Claim C6 counterexample: surrounding whitespace is not always ignored: a
leading no-break space (Unicode whitespace, removed by `str::trim`) makes
`from_hex` fail although the same input without it decodes. -/
theorem from_hex_nbsp_sandwich_counterexample :
    rustIsWhitespace (Char.ofNat 0xA0) = true ∧
    from_hex (Char.ofNat 0xA0 :: "0a0b0c0d".data) = .error .HexConversionError ∧
    from_hex "0a0b0c0d".data = .ok [10, 11, 12, 13] :=
  ⟨by decide, by decide, by decide⟩

theorem from_hex_ws_and_marker_witness :
    from_hex ([' '] ++ "0a0b".data ++ [' ', ' ']) = from_hex "0a0b".data ∧
    from_hex ('0' :: 'x' :: "0a0b".data) = from_hex "0a0b".data :=
  ⟨(from_hex_ws_and_marker "0a0b".data [' '] [' ', ' '] "0a0b".data
      (by decide) (by decide) (by decide) (by decide)).1,
    (from_hex_ws_and_marker "0a0b".data [' '] [' ', ' '] "0a0b".data
      (by decide) (by decide) (by decide) (by decide)).2.1⟩

/-! ### Claim C2: exact characterization of accepted inputs -/

theorem mapError_eq_ok {α ε ε' : Type} {f : ε → ε'} {x : Except ε α} {a : α} :
    Except.mapError f x = .ok a ↔ x = .ok a := by
  cases x <;> simp [Except.mapError]

theorem u8_pair_ok_iff (c1 c2 : Char) :
    (∃ b, u8FromStrRadix16 [c1, c2] = .ok b) ↔ pairOk c1 c2 = true := by
  have hplus : hexDigit? '+' = none := by decide
  by_cases hp : c1 = '+'
  · subst hp
    cases h2 : hexDigit? c2 with
    | none => simp [u8FromStrRadix16, u8Radix16Go, h2, pairOk, hplus]
    | some d =>
      have hd := hexDigit?_lt h2
      simp only [u8FromStrRadix16, u8Radix16Go, h2, pairOk, hplus]
      simp
      rw [if_neg (by omega : ¬ 255 < d)]
      exact ⟨d, rfl⟩
  · cases h1 : hexDigit? c1 with
    | none => simp [u8FromStrRadix16, u8Radix16Go, hp, h1, pairOk]
    | some d1 =>
      have hd1 := hexDigit?_lt h1
      cases h2 : hexDigit? c2 with
      | none =>
        simp [u8FromStrRadix16, u8Radix16Go, hp, h1, h2, pairOk]
        intro x
        split <;> simp
      | some d2 =>
        have hd2 := hexDigit?_lt h2
        simp [u8FromStrRadix16, u8Radix16Go, hp, h1, h2, pairOk]
        refine ⟨d1 * 16 + d2, ?_⟩
        rw [if_neg (by omega : ¬ 255 < d1), if_neg (by omega : ¬ 255 < d1 * 16),
          if_neg (by omega : ¬ 255 < d1 * 16 + d2)]

theorem decodePairs_ok_iff : ∀ t : List Char, t.length % 2 = 0 →
    ((∃ bs, decodePairs t = .ok bs) ↔ pairsOk t = true) := by
  intro t
  induction t using pairsOk.induct with
  | case1 => intro _; simp [decodePairs, pairsOk]
  | case2 c => intro h; simp at h
  | case3 c1 c2 rest ih =>
    intro heven
    have hr : rest.length % 2 = 0 := by
      simp only [List.length_cons] at heven; omega
    cases hu : u8FromStrRadix16 [c1, c2] with
    | error e =>
      have hpo : pairOk c1 c2 = false := by
        cases hpo : pairOk c1 c2
        · rfl
        · obtain ⟨b, hb⟩ := (u8_pair_ok_iff c1 c2).mpr hpo
          rw [hu] at hb
          cases hb
      simp [decodePairs, pairsOk, hu, hpo]
    | ok b =>
      have hpo : pairOk c1 c2 = true := (u8_pair_ok_iff c1 c2).mp ⟨b, hu⟩
      cases hd : decodePairs rest with
      | error e =>
        have hpr : pairsOk rest = false := by
          cases hpr : pairsOk rest
          · rfl
          · obtain ⟨bs, hbs⟩ := (ih hr).mpr hpr
            rw [hd] at hbs
            cases hbs
        simp [decodePairs, pairsOk, hu, hd, hpo, hpr]
      | ok bs =>
        have hpr : pairsOk rest = true := (ih hr).mp ⟨bs, hd⟩
        simp [decodePairs, pairsOk, hu, hd, hpo, hpr]

theorem decodePairs_length : ∀ (t : List Char) (bs : List Nat),
    decodePairs t = .ok bs → bs.length = t.length / 2 := by
  intro t
  induction t using pairsOk.induct with
  | case1 => intro bs h; cases h; rfl
  | case2 c => intro bs h; cases h; simp
  | case3 c1 c2 rest ih =>
    intro bs h
    simp only [decodePairs] at h
    cases hu : u8FromStrRadix16 [c1, c2] with
    | error e => rw [hu] at h; cases h
    | ok b =>
      rw [hu] at h
      cases hd : decodePairs rest with
      | error e => rw [hd] at h; cases h
      | ok bs2 =>
        rw [hd] at h
        cases h
        have := ih bs2 hd
        simp only [List.length_cons, this]
        omega

theorem strip0x_length_even {s : List Char} (ht : allAscii s = true)
    (heven : ¬ byteLen (rustTrim s) % 2 = 1) :
    (strip0x (rustTrim s)).length % 2 = 0 := by
  have hlt : byteLen (rustTrim s) = (rustTrim s).length :=
    byteLen_eq_length fun c hc => allAscii_iff.mp ht c (mem_rustTrim hc)
  unfold strip0x
  split
  · rw [List.length_drop]; omega
  · omega

/-- Claim C2 (amended): `from_hex` succeeds exactly on those strings whose
trimmed byte length is even, whose original text is all ASCII, and whose
post-trim post-`0x`-strip remainder splits into two-character chunks each
accepted by the pair parser, i.e. two hex digits or a `+` sign followed by
a hex digit (the claim omitted the `+`-sign acceptance and the
whole-input ASCII requirement); no successful result consumes only part of
the input: the result always holds one byte per two decoded characters. -/
theorem from_hex_success_iff (s : List Char) :
    ((∃ bs, from_hex s = .ok bs) ↔
      (byteLen (rustTrim s) % 2 = 0 ∧ allAscii s = true ∧
        pairsOk (strip0x (rustTrim s)) = true)) ∧
    (∀ bs, from_hex s = .ok bs → bs.length = (strip0x (rustTrim s)).length / 2) := by
  constructor
  · constructor
    · rintro ⟨bs, hbs⟩
      by_cases h1 : byteLen (rustTrim s) % 2 = 1
      · simp [from_hex, h1] at hbs
      · by_cases h2 : allAscii s = false
        · simp [from_hex, h1, h2] at hbs
        · have ht : allAscii s = true := by revert h2; cases allAscii s <;> simp
          refine ⟨by omega, ht, ?_⟩
          simp only [from_hex] at hbs
          rw [if_neg h1, if_neg h2] at hbs
          exact (decodePairs_ok_iff _ (strip0x_length_even ht h1)).mp
            ⟨bs, mapError_eq_ok.mp hbs⟩
    · rintro ⟨heven, ht, hpairs⟩
      have h1 : ¬ byteLen (rustTrim s) % 2 = 1 := by omega
      have h2 : ¬ allAscii s = false := by rw [ht]; simp
      obtain ⟨bs, hok⟩ := (decodePairs_ok_iff _ (strip0x_length_even ht h1)).mpr hpairs
      refine ⟨bs, ?_⟩
      simp only [from_hex]
      rw [if_neg h1, if_neg h2]
      exact mapError_eq_ok.mpr hok
  · intro bs hbs
    by_cases h1 : byteLen (rustTrim s) % 2 = 1
    · simp [from_hex, h1] at hbs
    · by_cases h2 : allAscii s = false
      · simp [from_hex, h1, h2] at hbs
      · simp only [from_hex] at hbs
        rw [if_neg h1, if_neg h2] at hbs
        exact decodePairs_length _ bs (mapError_eq_ok.mp hbs)

/-- Claim C2 counterexample: `from_hex` accepts the string "+f" and returns
`Ok [15]` although `+` is not a hexadecimal digit character, because the
underlying integer parser accepts a leading plus sign in each pair. -/
theorem from_hex_plus_sign_counterexample :
    from_hex ['+', 'f'] = .ok [15] ∧ hexDigit? '+' = none :=
  ⟨by decide, by decide⟩

theorem from_hex_success_iff_witness :
    ∃ bs, from_hex "0a0b".data = .ok bs :=
  (from_hex_success_iff "0a0b".data).1.mpr (by decide)

/-! ### ASCII lowercasing lemmas -/

theorem char_toNat_ofNat {n : Nat} (h : n < 0xd800) : (Char.ofNat n).toNat = n := by
  have hv : n.isValidChar := Or.inl h
  rw [Char.ofNat, dif_pos hv]
  rfl

theorem char_toNat_inj {a b : Char} (h : a.toNat = b.toNat) : a = b := by
  apply Char.ext
  apply UInt32.eq_of_toBitVec_eq
  exact BitVec.eq_of_toNat_eq h

theorem asciiLowerChar_toNat_upper {c : Char} (h : 65 ≤ c.toNat ∧ c.toNat ≤ 90) :
    (asciiLowerChar c).toNat = c.toNat + 32 := by
  unfold asciiLowerChar
  rw [if_pos h, char_toNat_ofNat (by omega)]

theorem asciiLowerChar_eq_self {c : Char} (h : ¬ (65 ≤ c.toNat ∧ c.toNat ≤ 90)) :
    asciiLowerChar c = c := by
  unfold asciiLowerChar
  rw [if_neg h]

theorem rustIsWhitespace_of_visible {c : Char}
    (h : 33 ≤ c.toNat ∧ c.toNat ≤ 126) : rustIsWhitespace c = false := by
  unfold rustIsWhitespace
  simp only [Bool.or_eq_false_iff, Bool.and_eq_false_iff, decide_eq_false_iff_not]
  omega

theorem rustIsWhitespace_lower (c : Char) :
    rustIsWhitespace (asciiLowerChar c) = rustIsWhitespace c := by
  by_cases h : 65 ≤ c.toNat ∧ c.toNat ≤ 90
  · have h1 := asciiLowerChar_toNat_upper h
    rw [rustIsWhitespace_of_visible (by omega), rustIsWhitespace_of_visible (by omega)]
  · rw [asciiLowerChar_eq_self h]

theorem utf8Len_lower (c : Char) : utf8Len (asciiLowerChar c) = utf8Len c := by
  by_cases h : 65 ≤ c.toNat ∧ c.toNat ≤ 90
  · have h1 := asciiLowerChar_toNat_upper h
    rw [utf8Len_of_ascii (by omega), utf8Len_of_ascii (by omega)]
  · rw [asciiLowerChar_eq_self h]

theorem byteLen_cons (c : Char) (s : List Char) :
    byteLen (c :: s) = utf8Len c + byteLen s := by
  simp [byteLen]

theorem byteLen_lower (s : List Char) : byteLen (s.map asciiLowerChar) = byteLen s := by
  induction s with
  | nil => rfl
  | cons c rest ih => simp [List.map_cons, byteLen_cons, utf8Len_lower, ih]

theorem allAscii_lower (s : List Char) : allAscii (s.map asciiLowerChar) = allAscii s := by
  induction s with
  | nil => rfl
  | cons c rest ih =>
    have hc : decide ((asciiLowerChar c).toNat < 128) = decide (c.toNat < 128) := by
      by_cases h : 65 ≤ c.toNat ∧ c.toNat ≤ 90
      · have h1 := asciiLowerChar_toNat_upper h
        rw [decide_eq_true (by omega : (asciiLowerChar c).toNat < 128),
          decide_eq_true (by omega : c.toNat < 128)]
      · rw [asciiLowerChar_eq_self h]
    simp only [allAscii, List.map_cons, List.all_cons] at *
    rw [hc, ih]

theorem rustTrim_lower (s : List Char) :
    rustTrim (s.map asciiLowerChar) = (rustTrim s).map asciiLowerChar := by
  have hfun : rustIsWhitespace ∘ asciiLowerChar = rustIsWhitespace :=
    funext rustIsWhitespace_lower
  unfold rustTrim
  rw [List.dropWhile_map, hfun, ← List.map_reverse, List.dropWhile_map, hfun,
    ← List.map_reverse]

theorem hexDigit?_lower (c : Char) : hexDigit? (asciiLowerChar c) = hexDigit? c := by
  by_cases h : 65 ≤ c.toNat ∧ c.toNat ≤ 90
  · have h1 := asciiLowerChar_toNat_upper h
    unfold hexDigit?
    by_cases h2 : c.toNat ≤ 70
    · rw [if_neg (by omega), if_pos (by omega), if_neg (by omega), if_neg (by omega),
        if_pos (by omega)]
      congr 1
      omega
    · rw [if_neg (by omega), if_neg (by omega), if_neg (by omega), if_neg (by omega),
        if_neg (by omega), if_neg (by omega)]
  · rw [asciiLowerChar_eq_self h]

theorem asciiLowerChar_ne_plus {c : Char} (h : c ≠ '+') : asciiLowerChar c ≠ '+' := by
  intro hx
  by_cases hu : 65 ≤ c.toNat ∧ c.toNat ≤ 90
  · have h1 := asciiLowerChar_toNat_upper hu
    have h2 := congrArg Char.toNat hx
    rw [h1] at h2
    have : ('+').toNat = 43 := by decide
    omega
  · rw [asciiLowerChar_eq_self hu] at hx
    exact h hx

theorem u8Radix16Go_lower : ∀ (l : List Char) (acc : Nat),
    u8Radix16Go (l.map asciiLowerChar) acc = u8Radix16Go l acc := by
  intro l
  induction l with
  | nil => intro acc; rfl
  | cons c rest ih =>
    intro acc
    cases h : hexDigit? c with
    | none => simp only [List.map_cons, u8Radix16Go, hexDigit?_lower, h]
    | some d =>
      simp only [List.map_cons, u8Radix16Go, hexDigit?_lower, h]
      by_cases h1 : 255 < acc * 16
      · rw [if_pos h1, if_pos h1]
      · rw [if_neg h1, if_neg h1]
        by_cases h2 : 255 < acc * 16 + d
        · rw [if_pos h2, if_pos h2]
        · rw [if_neg h2, if_neg h2, ih]

theorem u8FromStrRadix16_lower (l : List Char) :
    u8FromStrRadix16 (l.map asciiLowerChar) = u8FromStrRadix16 l := by
  cases l with
  | nil => rfl
  | cons c rest =>
    simp only [List.map_cons, u8FromStrRadix16]
    by_cases hp : c = '+'
    · subst hp
      rw [show asciiLowerChar '+' = '+' from by decide]
      cases rest with
      | nil => rfl
      | cons c2 r2 =>
        simp only [List.map_cons]
        rw [if_neg (List.cons_ne_nil _ _)]
        exact u8Radix16Go_lower (c2 :: r2) 0
    · rw [if_neg (asciiLowerChar_ne_plus hp), if_neg hp]
      exact u8Radix16Go_lower (c :: rest) 0

theorem decodePairs_lower : ∀ t : List Char,
    decodePairs (t.map asciiLowerChar) = decodePairs t := by
  intro t
  induction t using pairsOk.induct with
  | case1 => rfl
  | case2 c => rfl
  | case3 c1 c2 rest ih =>
    simp only [List.map_cons, decodePairs]
    rw [show [asciiLowerChar c1, asciiLowerChar c2] =
      [c1, c2].map asciiLowerChar from rfl, u8FromStrRadix16_lower]
    cases u8FromStrRadix16 [c1, c2] with
    | error e => rfl
    | ok b => rw [ih]

theorem asciiLowerChar_eq_zero_digit {a : Char} (h : asciiLowerChar a = '0') :
    a = '0' := by
  by_cases hu : 65 ≤ a.toNat ∧ a.toNat ≤ 90
  · have h1 := asciiLowerChar_toNat_upper hu
    have h2 := congrArg Char.toNat h
    rw [h1] at h2
    have : ('0').toNat = 48 := by decide
    omega
  · rwa [asciiLowerChar_eq_self hu] at h

theorem asciiLowerChar_eq_x {b : Char} (h : asciiLowerChar b = 'x') :
    b = 'x' ∨ b = 'X' := by
  by_cases hu : 65 ≤ b.toNat ∧ b.toNat ≤ 90
  · right
    have h1 := asciiLowerChar_toNat_upper hu
    have h2 := congrArg Char.toNat h
    rw [h1] at h2
    have hx : ('x').toNat = 120 := by decide
    have hX : ('X').toNat = 88 := by decide
    exact char_toNat_inj (by omega)
  · left
    rwa [asciiLowerChar_eq_self hu] at h

theorem lower_take2_marker {t : List Char} (h : t.take 2 ≠ ['0', 'X']) :
    ((t.map asciiLowerChar).take 2 = ['0', 'x']) ↔ (t.take 2 = ['0', 'x']) := by
  rw [← List.map_take]
  cases ht : t.take 2 with
  | nil => simp
  | cons a l =>
    cases l with
    | nil => simp
    | cons b m =>
      cases m with
      | nil =>
        rw [ht] at h
        simp only [List.map_cons, List.map_nil, List.cons.injEq, and_true]
        constructor
        · rintro ⟨ha, hb⟩
          have ha' : a = '0' := asciiLowerChar_eq_zero_digit ha
          rcases asciiLowerChar_eq_x hb with hb' | hb'
          · exact ⟨ha', hb'⟩
          · exact absurd (by rw [ha', hb']) h
        · rintro ⟨ha, hb⟩
          subst ha
          subst hb
          exact ⟨by decide, by decide⟩
      | cons d p =>
        exfalso
        have hl := congrArg List.length ht
        simp only [List.length_take, List.length_cons] at hl
        omega

/-! ### Claim C10: uppercase digits and lowercase equivalence -/

/-- Claim C10 (amended): `from_hex` accepts uppercase hex digits A-F, e.g.
`from_hex "000000FF" = Ok [0,0,0,255]`; and `from_hex` of a string equals
`from_hex` of its ASCII-lowercased form for every input whose trimmed value
does not start with `0X` — the exception is forced because the `0x` marker
test is case-sensitive, so lowercasing can turn a failing `0X`-prefixed
input into a successful one. -/
theorem from_hex_uppercase (s : List Char) (h : (rustTrim s).take 2 ≠ ['0', 'X']) :
    from_hex (asciiLower s) = from_hex s ∧
    from_hex "000000FF".data = .ok [0, 0, 0, 255] := by
  refine ⟨?_, by decide⟩
  unfold asciiLower
  have htrim := rustTrim_lower s
  have hstrip : strip0x ((rustTrim s).map asciiLowerChar) =
      (strip0x (rustTrim s)).map asciiLowerChar := by
    unfold strip0x
    by_cases hc : 2 ≤ byteLen (rustTrim s) ∧ (rustTrim s).take 2 = ['0', 'x']
    · rw [if_pos ⟨by rw [byteLen_lower]; exact hc.1, (lower_take2_marker h).mpr hc.2⟩,
        if_pos hc, List.map_drop]
    · have hc' : ¬ (2 ≤ byteLen ((rustTrim s).map asciiLowerChar) ∧
          ((rustTrim s).map asciiLowerChar).take 2 = ['0', 'x']) := by
        intro hx
        refine hc ⟨?_, (lower_take2_marker h).mp hx.2⟩
        rw [← byteLen_lower (rustTrim s)]
        exact hx.1
      rw [if_neg hc', if_neg hc]
  simp only [from_hex, htrim, byteLen_lower, allAscii_lower, hstrip, decodePairs_lower]

/-- Claim C10 counterexample: `from_hex` of a string differs from `from_hex` of
its lowercased form: "0X1234" fails with `InvalidCharacter` because the
`0x` marker test is case-sensitive, while its lowercased form decodes. -/
theorem from_hex_upper_marker_counterexample :
    asciiLower "0X1234".data = "0x1234".data ∧
    from_hex "0X1234".data = .error (.InvalidCharacter .invalidDigit) ∧
    from_hex "0x1234".data = .ok [18, 52] :=
  ⟨by decide, by decide, by decide⟩

theorem from_hex_uppercase_witness :
    from_hex (asciiLower "000000FF".data) = from_hex "000000FF".data :=
  (from_hex_uppercase "000000FF".data (by decide)).1
